/-
  Verification development for the PETSS forecast-correction and
  exceedance-probability engine.

  The Python source is shallowly embedded: floating point values are
  modelled as rationals (ℚ), Python ints as ℤ or ℕ, pandas tables as
  lists of rows, and the persisted JSON bias file as a small value type.
  Each definition is translated from the function of the source file
  named in its doc comment.
-/
import Mathlib

/-! ## Bias state store (src/scripts/compute.py) -/

/-- `BiasState` dataclass from `compute.py`: rolling estimate of
`forecast - observed` error in feet, and the sample count backing it. -/
structure BiasState where
  rolling_bias_ft : ℚ
  n : ℤ
deriving DecidableEq, Repr

/-- The fresh state `BiasState()` (dataclass defaults `0.0`, `0`). -/
def BiasState.fresh : BiasState := ⟨0, 0⟩

/-- `update_bias` from `compute.py`:
`n' = min(state.n + 1, max_n)`; cumulative average while `state.n < max_n`,
exponential moving average with `alpha = 1/max_n` once saturated. -/
def update_bias (state : BiasState) (new_error_ft : ℚ) (max_n : ℤ := 60) : BiasState :=
  let n := min (state.n + 1) max_n
  if state.n < max_n then
    ⟨(state.rolling_bias_ft * (state.n : ℚ) + new_error_ft) / (n : ℚ), n⟩
  else
    ⟨(1 - 1 / (max_n : ℚ)) * state.rolling_bias_ft + (1 / (max_n : ℚ)) * new_error_ft, n⟩

/-- A JSON scalar as seen by `json.load` in `load_bias`.  `num` is a JSON
float, `int` a JSON integer; `other` stands for any value on which the
Python coercions `float(...)` / `int(...)` raise (arrays, objects, null,
non-numeric strings — numeric strings are not exercised by this pipeline:
`save_bias` only ever writes a float and an int). -/
inductive JVal where
  | num (q : ℚ)
  | int (z : ℤ)
  | other
deriving DecidableEq, Repr

/-- Python `float(v)` on a JSON scalar: succeeds on numbers, raises
(modelled as `none`) otherwise. -/
def JVal.toFloat : JVal → Option ℚ
  | .num q => some q
  | .int z => some (z : ℚ)
  | .other => none

/-- Rational truncation toward zero, the behaviour of Python `int(float)`. -/
def ratTrunc (q : ℚ) : ℤ := if 0 ≤ q then ⌊q⌋ else ⌈q⌉

/-- Python `int(v)` on a JSON scalar: exact on integers, truncates floats,
raises (modelled as `none`) otherwise. -/
def JVal.toInt : JVal → Option ℤ
  | .num q => some (ratTrunc q)
  | .int z => some z
  | .other => none

/-- The content found at the bias-state path: the file may be absent
(`os.path.exists` false), unreadable or not valid JSON (`malformed`,
anything making `json.load` or `open` raise), or a parsed JSON object,
modelled as its key/value pairs. -/
inductive BiasFile where
  | missing
  | malformed
  | content (obj : List (String × JVal))
deriving DecidableEq, Repr

/-- Python `j.get(key, dflt)` on the parsed object. -/
def jsonGet (obj : List (String × JVal)) (key : String) (dflt : JVal) : JVal :=
  (obj.lookup key).getD dflt

/-- `load_bias` from `compute.py`: a missing file gives the fresh state;
otherwise the fields are read with defaults `0.0` and `0` and coerced with
`float` / `int`; any exception (unreadable file, malformed JSON, failing
coercion) is caught and gives the fresh state. -/
def load_bias (f : BiasFile) : BiasState :=
  match f with
  | .missing => BiasState.fresh
  | .malformed => BiasState.fresh
  | .content obj =>
    match (jsonGet obj "rolling_bias_ft" (JVal.num 0)).toFloat,
          (jsonGet obj "n" (JVal.int 0)).toInt with
    | some r, some n => ⟨r, n⟩
    | _, _ => BiasState.fresh

/-- `save_bias` from `compute.py`: writes the JSON object
`{"rolling_bias_ft": state.rolling_bias_ft, "n": state.n}`. -/
def save_bias (state : BiasState) : BiasFile :=
  .content [("rolling_bias_ft", .num state.rolling_bias_ft), ("n", .int state.n)]

/-! ## Scaling detection (src/scripts/coops_fetch.py, `_parse_any_petss_csv`) -/

/-- Fraction of the values within `1e-6` of their own rounded integer:
`(abs(vals - vals.round()) < 1e-6).mean()` from `_parse_any_petss_csv`.
(numpy rounds half to even, Mathlib `round` half up; the two can only
differ at distance exactly `1/2` from both neighbours, far outside the
`1e-6` window, so the predicate is unaffected.) -/
def intishFrac (vals : List ℚ) : ℚ :=
  ((vals.filter (fun v => |v - ((round v : ℤ) : ℚ)| < 1 / 1000000)).length : ℚ)
    / (vals.length : ℚ)

/-- `abs(vals).max()` over a nonempty series (`0` on an empty one,
where the source never evaluates it). -/
def maxAbs : List ℚ → ℚ
  | [] => 0
  | v :: rest => rest.foldl (fun m w => max m |w|) |v|

/-- The scaling-detection step of `_parse_any_petss_csv` applied to the
surviving numeric values: if most values are integer-ish and the absolute
maximum exceeds 20, divide by 10 and tag `tenths_ft`; otherwise keep the
values with tag `ft`; an empty input keeps its (no) values with tag
`unknown`. -/
def detectScaling (vals : List ℚ) : List ℚ × String :=
  if vals.length = 0 then (vals, "unknown")
  else if intishFrac vals > 8 / 10 ∧ maxAbs vals > 20 then
    (vals.map (fun v => v / 10), "tenths_ft")
  else (vals, "ft")

/-- The integer test series `[10, 20, ..., 300]` from the spec. -/
def scalingSeriesTens : List ℚ := (List.range 30).map (fun k => ((k : ℚ) + 1) * 10)

/-- The non-integer test series `[1.2, 3.4, 2.1]` from the spec. -/
def scalingSeriesFt : List ℚ := [12 / 10, 34 / 10, 21 / 10]

/-! ## Exceedance probability engine (src/scripts/coops_fetch.py) -/

/-- One output row of `compute_exceedance_probs`: per-timestamp exceedance
probabilities (percent), mean, 10th/90th percentile, member count. -/
structure ExceedanceRow where
  valid_time : ℤ
  p_minor : ℚ
  p_moderate : ℚ
  p_major : ℚ
  mean_ft : ℚ
  p10_ft : ℚ
  p90_ft : ℚ
  n_members : ℕ
deriving DecidableEq, Repr

/-- `prob_exceed` from `compute_exceedance_probs`:
`100.0 * (group["stormtide_ft"] >= thr).mean()`, i.e. one hundred times the
fraction of member values at or above the threshold (comparison inclusive). -/
def exceedProb (vals : List ℚ) (thr : ℚ) : ℚ :=
  100 * ((vals.filter (fun v => thr ≤ v)).length : ℚ) / (vals.length : ℚ)

/-- `Series.mean()`: arithmetic mean of the group's values. -/
def listMean (vals : List ℚ) : ℚ := vals.sum / (vals.length : ℚ)

/-- The linear-interpolation evaluation used by `Series.quantile`:
position `h = q·(n-1)` into the sorted values `s`, value
`s[⌊h⌋] + (h - ⌊h⌋)·(s[⌊h⌋+1] - s[⌊h⌋])` (indices clamped at the last
element, which is only reached at `h = n-1` for `q ∈ [0,1]`). -/
def interpVal (s : List ℚ) (h : ℚ) : ℚ :=
  let i : ℕ := min ⌊h⌋.toNat (s.length - 1)
  let j : ℕ := min (i + 1) (s.length - 1)
  s.getD i 0 + (h - (i : ℚ)) * (s.getD j 0 - s.getD i 0)

/-- `Series.quantile(q)` with the default linear interpolation between
order statistics (`0` on an empty series, which pandas reports as NaN and
the source never consumes). -/
def quantile (vals : List ℚ) (q : ℚ) : ℚ :=
  let s := List.insertionSort (· ≤ ·) vals
  if s.length = 0 then 0
  else interpVal s (q * ((s.length : ℚ) - 1))

/-- The `pd.Series` built for one `valid_time` group inside
`compute_exceedance_probs`. -/
def mkExceedanceRow (t : ℤ) (vals : List ℚ)
    (minor_ft moderate_ft major_ft : ℚ) : ExceedanceRow :=
  { valid_time := t
    p_minor := exceedProb vals minor_ft
    p_moderate := exceedProb vals moderate_ft
    p_major := exceedProb vals major_ft
    mean_ft := listMean vals
    p10_ft := quantile vals (1 / 10)
    p90_ft := quantile vals (9 / 10)
    n_members := vals.length }

/-- The member values sharing one `valid_time` (`df.groupby("valid_time")`):
a table row is a `(valid_time, stormtide_ft)` pair. -/
def groupValues (rows : List (ℤ × ℚ)) (t : ℤ) : List ℚ :=
  (rows.filter (fun r => r.1 = t)).map (fun r => r.2)

/-- The distinct `valid_time` keys in ascending order, as produced by
`groupby` (sorted group keys) followed by the final `sort_values`. -/
def groupTimes (rows : List (ℤ × ℚ)) : List ℤ :=
  (List.insertionSort (· ≤ ·) (rows.map (fun r => r.1))).dedup

/-- `compute_exceedance_probs` from `coops_fetch.py`: empty in, empty out;
otherwise one row per distinct `valid_time`, over the members present at
that time, sorted ascending by time. -/
def compute_exceedance_probs (rows : List (ℤ × ℚ))
    (minor_ft moderate_ft major_ft : ℚ) : List ExceedanceRow :=
  (groupTimes rows).map
    (fun t => mkExceedanceRow t (groupValues rows t) minor_ft moderate_ft major_ft)

/-! ## Peak window selection (src/scripts/coops_fetch.py, `pick_peak_window`) -/

/-- `sel["valid_time"].min()`: smallest time of a nonempty selection. -/
def timesMin (rows : List ExceedanceRow) : Option ℤ :=
  match rows with
  | [] => none
  | r :: rest => some (rest.foldl (fun m s => min m s.valid_time) r.valid_time)

/-- `sel["valid_time"].max()`: largest time of a nonempty selection. -/
def timesMax (rows : List ExceedanceRow) : Option ℤ :=
  match rows with
  | [] => none
  | r :: rest => some (rest.foldl (fun m s => max m s.valid_time) r.valid_time)

/-- `pick_peak_window` from `coops_fetch.py`: on an empty table all three
results are `None`; otherwise the rows with `p_minor >= min_prob` are
selected (pandas `idxmax` keeps the first of tied maxima, as does
`List.argmax`); if none qualify, the window is open and the peak falls back
to the row of globally maximal `mean_ft`. -/
def pick_peak_window (rows : List ExceedanceRow) (min_prob : ℚ) :
    Option ℤ × Option ℤ × Option ℤ :=
  match rows with
  | [] => (none, none, none)
  | _ :: _ =>
    let sel := rows.filter (fun r => min_prob ≤ r.p_minor)
    match sel.argmax (fun r => r.mean_ft) with
    | none =>
      (none, none, (rows.argmax (fun r => r.mean_ft)).map (fun r => r.valid_time))
    | some r => (timesMin sel, timesMax sel, some r.valid_time)

/-! ## Trend blend (src/scripts/run_waveland.py, step 6) -/

/-- `obs_df["t"].min()`: earliest observation time (in seconds). -/
def tMin (obs : List (ℚ × ℚ)) : ℚ :=
  match obs with
  | [] => 0
  | p :: rest => rest.foldl (fun m q => min m q.1) p.1

/-- `x = (obs_df["t"] - obs_df["t"].min()).dt.total_seconds()`. -/
def trendXs (obs : List (ℚ × ℚ)) : List ℚ := obs.map (fun p => p.1 - tMin obs)

/-- `denom = (x**2).sum()`. -/
def trendDenom (obs : List (ℚ × ℚ)) : ℚ := ((trendXs obs).map (fun x => x ^ 2)).sum

/-- `y.mean()` over the observed values. -/
def trendYbar (obs : List (ℚ × ℚ)) : ℚ := listMean (obs.map (fun p => p.2))

/-- `slope_ft_per_s = (x * (y - y.mean())).sum() / denom`. -/
def trendSlope (obs : List (ℚ × ℚ)) : ℚ :=
  (((trendXs obs).zip (obs.map (fun p => p.2))).map
    (fun p => p.1 * (p.2 - trendYbar obs))).sum / trendDenom obs

/-- The trend-fitting step of `main` in `run_waveland.py`: with at least
`10` observation points (`len(obs_df) >= 10`) and a positive denominator,
the least-squares slope is converted to feet/hour (`* 3600`) and projected
six hours forward (`* 6`), with `trend_used = True`; otherwise
`trend_adj = 0` and `trend_used = False`. -/
def fitTrend (obs : List (ℚ × ℚ)) : ℚ × Bool :=
  if 10 ≤ obs.length then
    if 0 < trendDenom obs then (trendSlope obs * 3600 * 6, true)
    else (0, false)
  else (0, false)

/-- The trend-application step of `main`: `stormtide_ft_final` starts as the
bias-corrected value; only when the trend was fitted and `|trend_adj| <= 2.0`
(the guardrail) is `w * trend_adj` with `w = 0.30` added to rows whose
`valid_time` is within the 12-hour horizon limit.  A table row is a
`(valid_time, stormtide_ft_bc)` pair. -/
def applyTrendBlend (rows : List (ℤ × ℚ)) (horizonLimit : ℤ)
    (trend_used : Bool) (trend_adj : ℚ) : List (ℤ × ℚ) :=
  if trend_used = true ∧ |trend_adj| ≤ 2 then
    rows.map (fun r => if r.1 ≤ horizonLimit then (r.1, r.2 + 3 / 10 * trend_adj) else r)
  else rows

/-- The `trend_blend.projected_adjustment_ft_6h` summary field of `main`:
`trend_adj if trend_used else 0.0`. -/
def summaryTrendAdj (trend_used : Bool) (trend_adj : ℚ) : ℚ :=
  if trend_used = true then trend_adj else 0

/-! ## Confidence score (src/scripts/run_waveland.py, step 7) -/

/-- `prob_ts["spread_ft"] = prob_ts["p90_ft"] - prob_ts["p10_ft"]`. -/
def spreadsOf (rows : List ExceedanceRow) : List ℚ :=
  rows.map (fun r => r.p90_ft - r.p10_ft)

/-- `Series.median()`, which equals the linear-interpolation quantile at
`q = 1/2`. -/
def seriesMedian (xs : List ℚ) : ℚ := quantile xs (1 / 2)

/-- `typical_spread = 1.0` (station constant, "tweak later per-station"). -/
def typical_spread : ℚ := 1

/-- The confidence score of `main`:
`max(0.0, min(1.0, 1.0 - (prob_ts["spread_ft"].median() / typical_spread)))`. -/
def confidence (rows : List ExceedanceRow) : ℚ :=
  max 0 (min 1 (1 - seriesMedian (spreadsOf rows) / typical_spread))

/-- Modelled from the spec's words, for comparison with `confidence`: a
score derived from the ensemble spread `p90_ft - p10_ft` AT THE PEAK row
(the row `pick_peak_window` selects), normalized by the typical-spread
constant and clamped to `[0,1]`. -/
def confidencePeakSpec (rows : List ExceedanceRow) (min_prob : ℚ) : ℚ :=
  let sel := rows.filter (fun r => min_prob ≤ r.p_minor)
  match (if sel.isEmpty then rows.argmax (fun r => r.mean_ft)
         else sel.argmax (fun r => r.mean_ft)) with
  | none => 0
  | some r => max 0 (min 1 (1 - (r.p90_ft - r.p10_ft) / typical_spread))

/-- The spec's peak-window scenario: three timestamps with minor-threshold
exceedance `{0%, 60%, 80%}` and means `{1, 3, 2}`. -/
def peakScenarioRows : List ExceedanceRow :=
  [⟨0, 0, 0, 0, 1, 1, 1, 5⟩, ⟨1, 60, 0, 0, 3, 3, 3, 5⟩, ⟨2, 80, 0, 0, 2, 2, 2, 5⟩]

/-- A two-row table separating the code's confidence from the spec's
peak-spread reading: the peak row (time `0`, larger mean) has zero spread,
the other row has spread `2`. -/
def confScenarioRows : List ExceedanceRow :=
  [⟨0, 50, 0, 0, 5, 5, 5, 1⟩, ⟨1, 50, 0, 0, 1, 0, 2, 1⟩]

/-- A synthetic observation series: `k` ranges over `0, ..., n-1`, times
six minutes (`360` s) apart, values `k` feet. -/
def rampObs (n : ℕ) : List (ℚ × ℚ) :=
  (List.range n).map (fun k => (360 * (k : ℚ), (k : ℚ)))

/-! ## Theorems for the bias claims -/

/-- **C2** Bias update: the new count is `min(n + 1, max_n)`; below
saturation the new rolling bias is the cumulative average
`(rolling·n + e) / n'`, at or above saturation it is the exponential
moving average `(1 - 1/max_n)·rolling + (1/max_n)·e`. -/
theorem update_bias_spec (state : BiasState) (new_error_ft : ℚ) (max_n : ℤ)
    (hmax : 0 < max_n) (hn : 0 ≤ state.n) :
    (update_bias state new_error_ft max_n).n = min (state.n + 1) max_n ∧
    (state.n < max_n →
      (update_bias state new_error_ft max_n).rolling_bias_ft =
        (state.rolling_bias_ft * (state.n : ℚ) + new_error_ft)
          / ((min (state.n + 1) max_n : ℤ) : ℚ)) ∧
    (max_n ≤ state.n →
      (update_bias state new_error_ft max_n).rolling_bias_ft =
        (1 - 1 / (max_n : ℚ)) * state.rolling_bias_ft
          + (1 / (max_n : ℚ)) * new_error_ft) := by
  refine ⟨?_, ?_, ?_⟩
  · unfold update_bias
    split <;> rfl
  · intro h
    unfold update_bias
    simp only [if_pos h]
  · intro h
    unfold update_bias
    simp only [if_neg (not_lt.mpr h)]

/-- Witness for `update_bias_spec` at the fresh state, error `3/2`,
`max_n = 60`. -/
theorem update_bias_spec_witness :
    (update_bias BiasState.fresh (3 / 2) 60).n = min (BiasState.fresh.n + 1) 60 ∧
    (BiasState.fresh.n < 60 →
      (update_bias BiasState.fresh (3 / 2) 60).rolling_bias_ft =
        (BiasState.fresh.rolling_bias_ft * (BiasState.fresh.n : ℚ) + 3 / 2)
          / ((min (BiasState.fresh.n + 1) 60 : ℤ) : ℚ)) ∧
    ((60 : ℤ) ≤ BiasState.fresh.n →
      (update_bias BiasState.fresh (3 / 2) 60).rolling_bias_ft =
        (1 - 1 / ((60 : ℤ) : ℚ)) * BiasState.fresh.rolling_bias_ft
          + (1 / ((60 : ℤ) : ℚ)) * (3 / 2)) :=
  update_bias_spec BiasState.fresh (3 / 2) 60 (by decide) (by decide)

/-- **C8** Round-trip: loading the file written by `save_bias` recovers the
original state, for every representable `BiasState`. -/
theorem load_after_save_id (state : BiasState) :
    load_bias (save_bias state) = state := by
  cases state
  rfl

/-- **C9** Bias load never fails: it is a total function into `BiasState`,
and a missing, unreadable or malformed file yields the fresh zero state
`{rolling_bias_ft = 0, n = 0}`; so does a JSON object whose fields defeat
the numeric coercions. -/
theorem load_bias_total_and_fresh_on_failure :
    (∀ f : BiasFile, ∃ s : BiasState, load_bias f = s) ∧
    load_bias .missing = ⟨0, 0⟩ ∧
    load_bias .malformed = ⟨0, 0⟩ ∧
    (∀ obj : List (String × JVal),
      (jsonGet obj "rolling_bias_ft" (JVal.num 0)).toFloat = none →
      load_bias (.content obj) = ⟨0, 0⟩) := by
  refine ⟨fun f => ⟨load_bias f, rfl⟩, rfl, rfl, ?_⟩
  intro obj h
  simp only [load_bias]
  rw [h]
  cases (jsonGet obj "n" (JVal.int 0)).toInt <;> rfl

/-! ## Theorems for the scaling claim -/

set_option maxRecDepth 100000 in
/-- **C1** Scaling detection: a nonempty value list whose integer-ish
fraction exceeds `0.8` and whose absolute maximum exceeds `20` is divided
by `10` and tagged `tenths_ft`; any other nonempty list is kept unchanged
and tagged `ft`; an empty list is tagged `unknown`.  The series
`[10, 20, ..., 300]` is detected as tenths and divided by ten, the series
`[1.2, 3.4, 2.1]` as feet. -/
theorem detectScaling_spec :
    (∀ vals : List ℚ, vals ≠ [] →
      ((intishFrac vals > 8 / 10 ∧ maxAbs vals > 20) →
        detectScaling vals = (vals.map (fun v => v / 10), "tenths_ft")) ∧
      (¬(intishFrac vals > 8 / 10 ∧ maxAbs vals > 20) →
        detectScaling vals = (vals, "ft"))) ∧
    detectScaling [] = ([], "unknown") ∧
    detectScaling scalingSeriesTens =
      (scalingSeriesTens.map (fun v => v / 10), "tenths_ft") ∧
    detectScaling scalingSeriesFt = (scalingSeriesFt, "ft") := by
  refine ⟨?_, by with_unfolding_all decide, by with_unfolding_all decide, by with_unfolding_all decide⟩
  intro vals hne
  have hlen : ¬vals.length = 0 := by simpa using hne
  constructor
  · intro hcond
    unfold detectScaling
    rw [if_neg hlen, if_pos hcond]
  · intro hcond
    unfold detectScaling
    rw [if_neg hlen, if_neg hcond]

/-- Witness for `detectScaling_spec` on the non-integer series
`[1.2, 3.4, 2.1]`. -/
theorem detectScaling_spec_witness :
    ¬(intishFrac scalingSeriesFt > 8 / 10 ∧ maxAbs scalingSeriesFt > 20) ∧
    detectScaling scalingSeriesFt = (scalingSeriesFt, "ft") :=
  ⟨by with_unfolding_all decide, (detectScaling_spec.1 scalingSeriesFt (by with_unfolding_all decide)).2 (by with_unfolding_all decide)⟩

/-! ## Supporting lemmas for the exceedance statistics -/

/-- In a `≤`-sorted list, `getD` at a smaller in-bounds index is at most
`getD` at a larger one. -/
theorem sorted_getD_mono {s : List ℚ} (hs : List.Sorted (· ≤ ·) s)
    {i j : ℕ} (hij : i ≤ j) (hj : j < s.length) : s.getD i 0 ≤ s.getD j 0 := by
  have hi : i < s.length := Nat.lt_of_le_of_lt hij hj
  rw [List.getD_eq_getElem _ _ hi, List.getD_eq_getElem _ _ hj]
  exact hs.rel_get_of_le (Fin.mk_le_mk.mpr hij)

/-- The linear interpolation into a sorted list is monotone in the
position, over the meaningful range `[0, n-1]`. -/
theorem interpVal_mono {s : List ℚ} (hs : List.Sorted (· ≤ ·) s)
    (hlen : 1 ≤ s.length) {h1 h2 : ℚ} (h01 : 0 ≤ h1) (h12 : h1 ≤ h2)
    (h2n : h2 ≤ (s.length : ℚ) - 1) :
    interpVal s h1 ≤ interpVal s h2 := by
  have h02 : 0 ≤ h2 := le_trans h01 h12
  have hf1 : (0 : ℤ) ≤ ⌊h1⌋ := Int.floor_nonneg.mpr h01
  have hf2 : (0 : ℤ) ≤ ⌊h2⌋ := Int.floor_nonneg.mpr h02
  have hf12 : ⌊h1⌋ ≤ ⌊h2⌋ := Int.floor_le_floor h12
  have hcast : ((s.length - 1 : ℕ) : ℚ) = (s.length : ℚ) - 1 := by
    push_cast [hlen]
    ring
  have hf2top : ⌊h2⌋ ≤ ((s.length - 1 : ℕ) : ℤ) := by
    rw [← hcast] at h2n
    have h' : ⌊h2⌋ ≤ ⌊((s.length - 1 : ℕ) : ℚ)⌋ := Int.floor_le_floor h2n
    simpa using h'
  have hlast : s.length - 1 < s.length := Nat.sub_lt (by omega) (by omega)
  have hi2le : ⌊h2⌋.toNat ≤ s.length - 1 := Int.toNat_le.mpr hf2top
  have hi1le : ⌊h1⌋.toNat ≤ s.length - 1 := Int.toNat_le.mpr (le_trans hf12 hf2top)
  have hi12 : ⌊h1⌋.toNat ≤ ⌊h2⌋.toNat := Int.toNat_le_toNat hf12
  have hi1lt : ⌊h1⌋.toNat < s.length := Nat.lt_of_le_of_lt hi1le hlast
  have hi2lt : ⌊h2⌋.toNat < s.length := Nat.lt_of_le_of_lt hi2le hlast
  have ci1 : ((⌊h1⌋.toNat : ℕ) : ℚ) = ((⌊h1⌋ : ℤ) : ℚ) := by
    exact_mod_cast Int.toNat_of_nonneg hf1
  have ci2 : ((⌊h2⌋.toNat : ℕ) : ℚ) = ((⌊h2⌋ : ℤ) : ℚ) := by
    exact_mod_cast Int.toNat_of_nonneg hf2
  have hg1low : ((⌊h1⌋.toNat : ℕ) : ℚ) ≤ h1 := by rw [ci1]; exact Int.floor_le h1
  have hg1high : h1 ≤ ((⌊h1⌋.toNat : ℕ) : ℚ) + 1 := by
    rw [ci1]; exact le_of_lt (Int.lt_floor_add_one h1)
  have hg2low : ((⌊h2⌋.toNat : ℕ) : ℚ) ≤ h2 := by rw [ci2]; exact Int.floor_le h2
  simp only [interpVal]
  rw [min_eq_left hi1le, min_eq_left hi2le]
  rcases eq_or_lt_of_le hi12 with heq | hlt
  · rw [← heq]
    have hBA : s.getD ⌊h1⌋.toNat 0 ≤ s.getD (min (⌊h1⌋.toNat + 1) (s.length - 1)) 0 :=
      sorted_getD_mono hs (le_min (Nat.le_succ _) hi1le)
        (Nat.lt_of_le_of_lt (min_le_right _ _) hlast)
    have hmul := mul_le_mul_of_nonneg_right
      (sub_le_sub_right h12 ((⌊h1⌋.toNat : ℕ) : ℚ)) (sub_nonneg.mpr hBA)
    linarith
  · have hi1succ : ⌊h1⌋.toNat + 1 ≤ s.length - 1 := le_trans (Nat.succ_le_of_lt hlt) hi2le
    rw [min_eq_left hi1succ]
    have hA1B1 : s.getD ⌊h1⌋.toNat 0 ≤ s.getD (⌊h1⌋.toNat + 1) 0 :=
      sorted_getD_mono hs (Nat.le_succ _) (Nat.lt_of_le_of_lt hi1succ hlast)
    have hup : s.getD ⌊h1⌋.toNat 0 + (h1 - ((⌊h1⌋.toNat : ℕ) : ℚ)) *
        (s.getD (⌊h1⌋.toNat + 1) 0 - s.getD ⌊h1⌋.toNat 0) ≤ s.getD (⌊h1⌋.toNat + 1) 0 := by
      have hgle1 : h1 - ((⌊h1⌋.toNat : ℕ) : ℚ) ≤ 1 := by linarith
      have hmul := mul_le_mul_of_nonneg_right hgle1 (sub_nonneg.mpr hA1B1)
      linarith
    have hmid : s.getD (⌊h1⌋.toNat + 1) 0 ≤ s.getD ⌊h2⌋.toNat 0 :=
      sorted_getD_mono hs (Nat.succ_le_of_lt hlt) hi2lt
    have hA2B2 : s.getD ⌊h2⌋.toNat 0 ≤ s.getD (min (⌊h2⌋.toNat + 1) (s.length - 1)) 0 :=
      sorted_getD_mono hs (le_min (Nat.le_succ _) hi2le)
        (Nat.lt_of_le_of_lt (min_le_right _ _) hlast)
    have hlow : s.getD ⌊h2⌋.toNat 0 ≤ s.getD ⌊h2⌋.toNat 0 + (h2 - ((⌊h2⌋.toNat : ℕ) : ℚ)) *
        (s.getD (min (⌊h2⌋.toNat + 1) (s.length - 1)) 0 - s.getD ⌊h2⌋.toNat 0) := by
      nlinarith [mul_nonneg (sub_nonneg.mpr hg2low) (sub_nonneg.mpr hA2B2)]
    linarith

/-- The linear-interpolation quantile is monotone in `q` on `[0, 1]`. -/
theorem quantile_mono (vals : List ℚ) {q1 q2 : ℚ}
    (hq0 : 0 ≤ q1) (hq : q1 ≤ q2) (hq1 : q2 ≤ 1) :
    quantile vals q1 ≤ quantile vals q2 := by
  unfold quantile
  by_cases h0 : (List.insertionSort (· ≤ ·) vals).length = 0
  · simp [h0]
  · simp only [if_neg h0]
    have hs := List.sorted_insertionSort (· ≤ ·) vals
    have hlen : 1 ≤ (List.insertionSort (· ≤ ·) vals).length := Nat.one_le_iff_ne_zero.mpr h0
    have hc : (1 : ℚ) ≤ ((List.insertionSort (· ≤ ·) vals).length : ℚ) := by
      exact_mod_cast hlen
    refine interpVal_mono hs hlen ?_ ?_ ?_
    · exact mul_nonneg hq0 (by linarith)
    · exact mul_le_mul_of_nonneg_right hq (by linarith)
    · calc q2 * (((List.insertionSort (· ≤ ·) vals).length : ℚ) - 1)
          ≤ 1 * (((List.insertionSort (· ≤ ·) vals).length : ℚ) - 1) :=
            mul_le_mul_of_nonneg_right hq1 (by linarith)
        _ = ((List.insertionSort (· ≤ ·) vals).length : ℚ) - 1 := one_mul _

/-- The exceedance percentage is nonnegative. -/
theorem exceedProb_nonneg (vals : List ℚ) (thr : ℚ) : 0 ≤ exceedProb vals thr := by
  unfold exceedProb
  exact div_nonneg (by positivity) (Nat.cast_nonneg _)

/-- The exceedance percentage is at most one hundred. -/
theorem exceedProb_le_100 (vals : List ℚ) (thr : ℚ) : exceedProb vals thr ≤ 100 := by
  unfold exceedProb
  rcases Nat.eq_zero_or_pos vals.length with h | h
  · have : vals = [] := List.length_eq_zero.mp h
    subst this
    norm_num
  · have hc : ((vals.filter (fun v => thr ≤ v)).length : ℚ) ≤ (vals.length : ℚ) :=
      Nat.cast_le.mpr (List.length_filter_le _ _)
    have hq : (0 : ℚ) < (vals.length : ℚ) := by exact_mod_cast h
    rw [div_le_iff hq]
    nlinarith [hq, hc]

/-- A lower bound on all elements bounds `a * length` by the sum. -/
theorem mul_length_le_sum {a : ℚ} {vals : List ℚ} (h : ∀ v ∈ vals, a ≤ v) :
    a * (vals.length : ℚ) ≤ vals.sum := by
  induction vals with
  | nil => simp
  | cons x xs ih =>
    have hx := h x (by simp)
    have hxs := ih (fun v hv => h v (by simp [hv]))
    simp only [List.sum_cons, List.length_cons]
    push_cast
    linarith

/-- An upper bound on all elements bounds the sum by `b * length`. -/
theorem sum_le_mul_length {b : ℚ} {vals : List ℚ} (h : ∀ v ∈ vals, v ≤ b) :
    vals.sum ≤ b * (vals.length : ℚ) := by
  induction vals with
  | nil => simp
  | cons x xs ih =>
    have hx := h x (by simp)
    have hxs := ih (fun v hv => h v (by simp [hv]))
    simp only [List.sum_cons, List.length_cons]
    push_cast
    linarith

/-- The arithmetic mean of a nonempty list lies between any lower and any
upper bound of its elements. -/
theorem listMean_bounds {vals : List ℚ} (hne : vals ≠ []) {a b : ℚ}
    (ha : ∀ v ∈ vals, a ≤ v) (hb : ∀ v ∈ vals, v ≤ b) :
    a ≤ listMean vals ∧ listMean vals ≤ b := by
  have hlen : (0 : ℚ) < (vals.length : ℚ) :=
    Nat.cast_pos.mpr (List.length_pos.mpr hne)
  constructor
  · rw [listMean, le_div_iff hlen]
    exact mul_length_le_sum ha
  · rw [listMean, div_le_iff hlen]
    exact sum_le_mul_length hb

/-! ## Theorems for the exceedance claims -/

/-- **C10** Every row produced by the exceedance engine aggregates a
nonempty member group, so `n_members >= 1` — strictly stronger than the
declared `n_members >= 0`. -/
theorem n_members_pos (rows : List (ℤ × ℚ)) (minor_ft moderate_ft major_ft : ℚ) :
    ∀ row ∈ compute_exceedance_probs rows minor_ft moderate_ft major_ft,
      1 ≤ row.n_members := by
  intro row hrow
  unfold compute_exceedance_probs at hrow
  rcases List.mem_map.mp hrow with ⟨t, ht, rfl⟩
  unfold groupTimes at ht
  have ht' : t ∈ rows.map (fun r => r.1) :=
    (List.perm_insertionSort _ _).mem_iff.mp (List.mem_dedup.mp ht)
  rcases List.mem_map.mp ht' with ⟨p, hp, hpt⟩
  have hmem : p.2 ∈ groupValues rows t := by
    unfold groupValues
    exact List.mem_map.mpr ⟨p, List.mem_filter.mpr ⟨hp, by simp [hpt]⟩, rfl⟩
  show 1 ≤ (groupValues rows t).length
  exact List.length_pos.mpr (List.ne_nil_of_mem hmem)

/-- Witness for `n_members_pos` on a one-member table. -/
theorem n_members_pos_witness :
    1 ≤ ((compute_exceedance_probs [((0 : ℤ), (1 : ℚ))] 1 2 3).headD
      (mkExceedanceRow 0 [] 0 0 0)).n_members :=
  n_members_pos [((0 : ℤ), (1 : ℚ))] 1 2 3 _ (by with_unfolding_all decide)

/-- **C3** is false as stated: eleven members `[-100, 0, ..., 0]` at one
timestamp give `p10_ft = 0` (linear interpolation lands on the second order
statistic) but `mean_ft = -100/11 < 0`, so `p10_ft ≤ mean_ft` fails. -/
theorem exceedance_stats_claim_false :
    ¬ (∀ row ∈ compute_exceedance_probs
          (((0 : ℤ), (-100 : ℚ)) :: List.replicate 10 ((0 : ℤ), (0 : ℚ))) 1 2 3,
        row.p10_ft ≤ row.mean_ft ∧ row.mean_ft ≤ row.p90_ft) := by
  with_unfolding_all decide

/-- **C3** (amended) For every engine row, each exceedance probability lies
in `[0, 100]` and `p10_ft ≤ p90_ft`; for a nonempty member set the mean
lies between any lower and upper bound of the member values — but
`p10_ft ≤ mean_ft ≤ p90_ft` does not hold in general. -/
theorem exceedance_stats_bounds :
    (∀ (rows : List (ℤ × ℚ)) (minor_ft moderate_ft major_ft : ℚ),
      ∀ row ∈ compute_exceedance_probs rows minor_ft moderate_ft major_ft,
        (0 ≤ row.p_minor ∧ row.p_minor ≤ 100) ∧
        (0 ≤ row.p_moderate ∧ row.p_moderate ≤ 100) ∧
        (0 ≤ row.p_major ∧ row.p_major ≤ 100) ∧
        row.p10_ft ≤ row.p90_ft) ∧
    (∀ (t : ℤ) (vals : List ℚ) (minor_ft moderate_ft major_ft a b : ℚ),
      vals ≠ [] → (∀ v ∈ vals, a ≤ v) → (∀ v ∈ vals, v ≤ b) →
      a ≤ (mkExceedanceRow t vals minor_ft moderate_ft major_ft).mean_ft ∧
        (mkExceedanceRow t vals minor_ft moderate_ft major_ft).mean_ft ≤ b) := by
  constructor
  · intro rows m mo ma row hrow
    rcases List.mem_map.mp hrow with ⟨t, ht, rfl⟩
    exact ⟨⟨exceedProb_nonneg _ _, exceedProb_le_100 _ _⟩,
      ⟨exceedProb_nonneg _ _, exceedProb_le_100 _ _⟩,
      ⟨exceedProb_nonneg _ _, exceedProb_le_100 _ _⟩,
      quantile_mono _ (by norm_num) (by norm_num) (by norm_num)⟩
  · intro t vals m mo ma a b hne ha hb
    exact listMean_bounds hne ha hb

/-- Witness for `exceedance_stats_bounds`: the probability and quantile
bounds on a one-member table, and the mean bounds on `[1, 2]`. -/
theorem exceedance_stats_bounds_witness :
    (((compute_exceedance_probs [((0 : ℤ), (1 : ℚ))] 1 2 3).headD
        (mkExceedanceRow 0 [] 0 0 0)).p10_ft ≤
      ((compute_exceedance_probs [((0 : ℤ), (1 : ℚ))] 1 2 3).headD
        (mkExceedanceRow 0 [] 0 0 0)).p90_ft) ∧
    (1 : ℚ) ≤ (mkExceedanceRow 0 [1, 2] 1 2 3).mean_ft ∧
    (mkExceedanceRow 0 [1, 2] 1 2 3).mean_ft ≤ 2 :=
  ⟨(exceedance_stats_bounds.1 [((0 : ℤ), (1 : ℚ))] 1 2 3 _
      (by with_unfolding_all decide)).2.2.2,
   (exceedance_stats_bounds.2 0 [1, 2] 1 2 3 1 2 (by with_unfolding_all decide)
      (by with_unfolding_all decide) (by with_unfolding_all decide)).1,
   (exceedance_stats_bounds.2 0 [1, 2] 1 2 3 1 2 (by with_unfolding_all decide)
      (by with_unfolding_all decide) (by with_unfolding_all decide)).2⟩

/-! ## Supporting lemmas for the peak window -/

/-- The left fold with `min` over `valid_time` is a lower bound and is
attained (by the seed or by a list element). -/
theorem foldl_min_props (l : List ExceedanceRow) :
    ∀ init : ℤ,
      (l.foldl (fun m s => min m s.valid_time) init ≤ init) ∧
      (∀ r ∈ l, l.foldl (fun m s => min m s.valid_time) init ≤ r.valid_time) ∧
      (l.foldl (fun m s => min m s.valid_time) init = init ∨
        ∃ r ∈ l, l.foldl (fun m s => min m s.valid_time) init = r.valid_time) := by
  induction l with
  | nil => intro init; exact ⟨le_refl _, by simp, Or.inl rfl⟩
  | cons x xs ih =>
    intro init
    simp only [List.foldl_cons]
    obtain ⟨h1, h2, h3⟩ := ih (min init x.valid_time)
    refine ⟨le_trans h1 (min_le_left _ _), ?_, ?_⟩
    · intro r hr
      rcases List.mem_cons.mp hr with hx | hr'
      · rw [hx]
        exact le_trans h1 (min_le_right _ _)
      · exact h2 r hr'
    · rcases h3 with heq | ⟨r, hr, heq⟩
      · rcases le_total init x.valid_time with hle | hle
        · left
          rw [heq, min_eq_left hle]
        · right
          exact ⟨x, List.mem_cons_self _ _, by rw [heq, min_eq_right hle]⟩
      · right
        exact ⟨r, List.mem_cons_of_mem _ hr, heq⟩

/-- The left fold with `max` over `valid_time` is an upper bound and is
attained (by the seed or by a list element). -/
theorem foldl_max_props (l : List ExceedanceRow) :
    ∀ init : ℤ,
      (init ≤ l.foldl (fun m s => max m s.valid_time) init) ∧
      (∀ r ∈ l, r.valid_time ≤ l.foldl (fun m s => max m s.valid_time) init) ∧
      (l.foldl (fun m s => max m s.valid_time) init = init ∨
        ∃ r ∈ l, l.foldl (fun m s => max m s.valid_time) init = r.valid_time) := by
  induction l with
  | nil => intro init; exact ⟨le_refl _, by simp, Or.inl rfl⟩
  | cons x xs ih =>
    intro init
    simp only [List.foldl_cons]
    obtain ⟨h1, h2, h3⟩ := ih (max init x.valid_time)
    refine ⟨le_trans (le_max_left _ _) h1, ?_, ?_⟩
    · intro r hr
      rcases List.mem_cons.mp hr with hx | hr'
      · rw [hx]
        exact le_trans (le_max_right _ _) h1
      · exact h2 r hr'
    · rcases h3 with heq | ⟨r, hr, heq⟩
      · rcases le_total x.valid_time init with hle | hle
        · left
          rw [heq, max_eq_left hle]
        · right
          exact ⟨x, List.mem_cons_self _ _, by rw [heq, max_eq_right hle]⟩
      · right
        exact ⟨r, List.mem_cons_of_mem _ hr, heq⟩

/-- `timesMin` of a nonempty selection is `some` of its least time. -/
theorem timesMin_spec {rows : List ExceedanceRow} (hne : rows ≠ []) :
    ∃ m, timesMin rows = some m ∧ (∃ r ∈ rows, m = r.valid_time) ∧
      ∀ r ∈ rows, m ≤ r.valid_time := by
  match rows, hne with
  | r :: rest, _ =>
    obtain ⟨h1, h2, h3⟩ := foldl_min_props rest r.valid_time
    have hdef : timesMin (r :: rest) =
        some (rest.foldl (fun m s => min m s.valid_time) r.valid_time) := rfl
    refine ⟨rest.foldl (fun m s => min m s.valid_time) r.valid_time, hdef, ?_, ?_⟩
    · rcases h3 with heq | ⟨s, hs, heq⟩
      · exact ⟨r, List.mem_cons_self _ _, heq⟩
      · exact ⟨s, List.mem_cons_of_mem _ hs, heq⟩
    · intro s hs
      rcases List.mem_cons.mp hs with hx | hs'
      · rw [hx]
        exact h1
      · exact h2 s hs'

/-- `timesMax` of a nonempty selection is `some` of its greatest time. -/
theorem timesMax_spec {rows : List ExceedanceRow} (hne : rows ≠ []) :
    ∃ m, timesMax rows = some m ∧ (∃ r ∈ rows, m = r.valid_time) ∧
      ∀ r ∈ rows, r.valid_time ≤ m := by
  match rows, hne with
  | r :: rest, _ =>
    obtain ⟨h1, h2, h3⟩ := foldl_max_props rest r.valid_time
    have hdef : timesMax (r :: rest) =
        some (rest.foldl (fun m s => max m s.valid_time) r.valid_time) := rfl
    refine ⟨rest.foldl (fun m s => max m s.valid_time) r.valid_time, hdef, ?_, ?_⟩
    · rcases h3 with heq | ⟨s, hs, heq⟩
      · exact ⟨r, List.mem_cons_self _ _, heq⟩
      · exact ⟨s, List.mem_cons_of_mem _ hs, heq⟩
    · intro s hs
      rcases List.mem_cons.mp hs with hx | hs'
      · rw [hx]
        exact h1
      · exact h2 s hs'

/-- **C7** Peak window selection: on a nonempty table, if some rows meet
the gate then the window start/end are the least/greatest `valid_time`
over those rows and the peak time belongs to a gated row of maximal
`mean_ft`; if no row meets the gate the window is open (`none`) and the
peak time belongs to a row of globally maximal `mean_ft`; the peak time is
never `none`. -/
theorem pick_peak_window_spec (rows : List ExceedanceRow) (min_prob : ℚ)
    (hne : rows ≠ []) :
    ((rows.filter (fun r => min_prob ≤ r.p_minor)) ≠ [] →
      ∃ m M rmax,
        pick_peak_window rows min_prob = (some m, some M, some rmax.valid_time) ∧
        (∃ r ∈ rows.filter (fun r => min_prob ≤ r.p_minor), m = r.valid_time) ∧
        (∀ r ∈ rows.filter (fun r => min_prob ≤ r.p_minor), m ≤ r.valid_time) ∧
        (∃ r ∈ rows.filter (fun r => min_prob ≤ r.p_minor), M = r.valid_time) ∧
        (∀ r ∈ rows.filter (fun r => min_prob ≤ r.p_minor), r.valid_time ≤ M) ∧
        rmax ∈ rows.filter (fun r => min_prob ≤ r.p_minor) ∧
        (∀ r ∈ rows.filter (fun r => min_prob ≤ r.p_minor), r.mean_ft ≤ rmax.mean_ft)) ∧
    ((rows.filter (fun r => min_prob ≤ r.p_minor)) = [] →
      ∃ rmax,
        pick_peak_window rows min_prob = (none, none, some rmax.valid_time) ∧
        rmax ∈ rows ∧ ∀ r ∈ rows, r.mean_ft ≤ rmax.mean_ft) ∧
    (pick_peak_window rows min_prob).2.2 ≠ none := by
  cases rows with
  | nil => exact absurd rfl hne
  | cons a as =>
    refine ⟨?_, ?_, ?_⟩
    · intro hselne
      cases hargx : ((a :: as).filter (fun r => min_prob ≤ r.p_minor)).argmax
          (fun r => r.mean_ft) with
      | none => exact absurd (List.argmax_eq_none.mp hargx) hselne
      | some rmax =>
        obtain ⟨m, hm, hmmem, hmle⟩ := timesMin_spec hselne
        obtain ⟨M, hM, hMmem, hMge⟩ := timesMax_spec hselne
        have hpick : pick_peak_window (a :: as) min_prob =
            (some m, some M, some rmax.valid_time) := by
          simp only [pick_peak_window, hargx, hm, hM]
        exact ⟨m, M, rmax, hpick, hmmem, hmle, hMmem, hMge,
          List.argmax_mem (Option.mem_def.mpr hargx),
          fun r hr => List.le_of_mem_argmax hr (Option.mem_def.mpr hargx)⟩
    · intro hsel
      have hargx : ((a :: as).filter (fun r => min_prob ≤ r.p_minor)).argmax
          (fun r => r.mean_ft) = none := List.argmax_eq_none.mpr hsel
      cases hargall : (a :: as).argmax (fun r => r.mean_ft) with
      | none => exact absurd (List.argmax_eq_none.mp hargall) (List.cons_ne_nil a as)
      | some rmax =>
        refine ⟨rmax, ?_, List.argmax_mem (Option.mem_def.mpr hargall),
          fun r hr => List.le_of_mem_argmax hr (Option.mem_def.mpr hargall)⟩
        simp only [pick_peak_window, hargx, hargall, Option.map_some']
    · by_cases hsel : ((a :: as).filter (fun r => min_prob ≤ r.p_minor)) = []
      · have hargx : ((a :: as).filter (fun r => min_prob ≤ r.p_minor)).argmax
            (fun r => r.mean_ft) = none := List.argmax_eq_none.mpr hsel
        cases hargall : (a :: as).argmax (fun r => r.mean_ft) with
        | none => exact absurd (List.argmax_eq_none.mp hargall) (List.cons_ne_nil a as)
        | some rmax =>
          simp only [pick_peak_window, hargx, hargall, Option.map_some']
          simp
      · cases hargx : ((a :: as).filter (fun r => min_prob ≤ r.p_minor)).argmax
            (fun r => r.mean_ft) with
        | none => exact absurd (List.argmax_eq_none.mp hargx) hsel
        | some rmax =>
          obtain ⟨m, hm, _, _⟩ := timesMin_spec hsel
          obtain ⟨M, hM, _, _⟩ := timesMax_spec hsel
          simp only [pick_peak_window, hargx, hm, hM]
          simp

/-- Witness for `pick_peak_window_spec` on the spec's three-row scenario
(gate `40`): the window is `[1, 2]` and the peak is at time `1`, the gated
row with the larger mean. -/
theorem pick_peak_window_spec_witness :
    pick_peak_window peakScenarioRows 40 = (some 1, some 2, some 1) ∧
    (∃ m M rmax,
      pick_peak_window peakScenarioRows 40 = (some m, some M, some rmax.valid_time) ∧
      (∃ r ∈ peakScenarioRows.filter (fun r => (40 : ℚ) ≤ r.p_minor), m = r.valid_time) ∧
      (∀ r ∈ peakScenarioRows.filter (fun r => (40 : ℚ) ≤ r.p_minor), m ≤ r.valid_time) ∧
      (∃ r ∈ peakScenarioRows.filter (fun r => (40 : ℚ) ≤ r.p_minor), M = r.valid_time) ∧
      (∀ r ∈ peakScenarioRows.filter (fun r => (40 : ℚ) ≤ r.p_minor), r.valid_time ≤ M) ∧
      rmax ∈ peakScenarioRows.filter (fun r => (40 : ℚ) ≤ r.p_minor) ∧
      (∀ r ∈ peakScenarioRows.filter (fun r => (40 : ℚ) ≤ r.p_minor),
        r.mean_ft ≤ rmax.mean_ft)) :=
  ⟨by with_unfolding_all decide,
   (pick_peak_window_spec peakScenarioRows 40 (by with_unfolding_all decide)).1
     (by with_unfolding_all decide)⟩

/-! ## Theorems for the trend and confidence claims -/

/-- The trend denominator is a sum of squares, hence nonnegative. -/
theorem trendDenom_nonneg (obs : List (ℚ × ℚ)) : 0 ≤ trendDenom obs := by
  unfold trendDenom
  apply List.sum_nonneg
  intro x hx
  rcases List.mem_map.mp hx with ⟨y, _, rfl⟩
  positivity

/-- **C4** is false as stated: the code fits a trend only from
`len(obs_df) >= 10` observation points, not 8.  A nine-point series with
distinct times (so a nonzero denominator) gets `trend_used = false`. -/
theorem fitTrend_claim_false :
    8 ≤ (rampObs 9).length ∧ trendDenom (rampObs 9) ≠ 0 ∧
    fitTrend (rampObs 9) = (0, false) := by
  with_unfolding_all decide

/-- **C4** (amended) A least-squares trend is fitted and projected
(`trend_used = true`) for every observed series with at least 10 points
and nonzero `sum(x_i^2)`; with fewer than 10 points, or a zero
denominator, no trend is computed (`trend_used = false`, `trend_adj = 0`). -/
theorem fitTrend_spec (obs : List (ℚ × ℚ)) :
    (10 ≤ obs.length → trendDenom obs ≠ 0 →
      fitTrend obs = (trendSlope obs * 3600 * 6, true)) ∧
    (obs.length < 10 ∨ trendDenom obs = 0 → fitTrend obs = (0, false)) := by
  constructor
  · intro hlen hden
    have hpos : 0 < trendDenom obs := lt_of_le_of_ne (trendDenom_nonneg obs) (Ne.symm hden)
    unfold fitTrend
    rw [if_pos hlen, if_pos hpos]
  · intro h
    unfold fitTrend
    rcases h with h | h
    · rw [if_neg (by omega)]
    · by_cases hlen : 10 ≤ obs.length
      · rw [if_pos hlen, if_neg (by rw [h]; exact lt_irrefl 0)]
      · rw [if_neg hlen]

/-- Witness for `fitTrend_spec`: a ten-point ramp is fitted, a two-point
series is not. -/
theorem fitTrend_spec_witness :
    fitTrend (rampObs 10) = (trendSlope (rampObs 10) * 3600 * 6, true) ∧
    fitTrend (rampObs 2) = (0, false) :=
  ⟨(fitTrend_spec (rampObs 10)).1 (by with_unfolding_all decide)
      (by with_unfolding_all decide),
   (fitTrend_spec (rampObs 2)).2 (Or.inl (by with_unfolding_all decide))⟩

/-- **C6** Trend guardrail: when the trend was fitted (`trend_used = true`)
but `|trend_adj| > 2`, no forecast row is modified — the final values are
exactly the bias-corrected ones — while the summary still records the
numeric `trend_adj`. -/
theorem trend_guardrail (rows : List (ℤ × ℚ)) (horizonLimit : ℤ) (trend_adj : ℚ)
    (hadj : 2 < |trend_adj|) :
    applyTrendBlend rows horizonLimit true trend_adj = rows ∧
    summaryTrendAdj true trend_adj = trend_adj := by
  constructor
  · unfold applyTrendBlend
    rw [if_neg (fun h => absurd h.2 (not_le.mpr hadj))]
  · rfl

/-- Witness for `trend_guardrail` at the spec's `trend_adj = 3.0` scenario. -/
theorem trend_guardrail_witness :
    applyTrendBlend [((0 : ℤ), (1 : ℚ))] 5 true 3 = [((0 : ℤ), (1 : ℚ))] ∧
    summaryTrendAdj true 3 = 3 :=
  trend_guardrail [((0 : ℤ), (1 : ℚ))] 5 3 (by with_unfolding_all decide)

/-- **C5** is false as stated: the code derives confidence from the MEDIAN
of the per-row spreads over the whole table, not from the spread at the
peak.  Here the peak row has zero spread (peak-based score `1`) while the
median spread is `1` (code score `0`). -/
theorem confidence_claim_false :
    confidence confScenarioRows = 0 ∧
    confidencePeakSpec confScenarioRows 40 = 1 ∧
    confidence confScenarioRows ≠ confidencePeakSpec confScenarioRows 40 := by
  with_unfolding_all decide

/-- **C5** (amended) The confidence score is derived from the MEDIAN of
the per-row ensemble spreads `p90_ft - p10_ft`, normalized by the
typical-spread constant and clamped to `[0, 1]`; it always lies in
`[0, 1]` and a larger median spread yields a lower (or equal) confidence. -/
theorem confidence_spec :
    (∀ rows : List ExceedanceRow, 0 ≤ confidence rows ∧ confidence rows ≤ 1) ∧
    (∀ rows1 rows2 : List ExceedanceRow,
      seriesMedian (spreadsOf rows1) ≤ seriesMedian (spreadsOf rows2) →
      confidence rows2 ≤ confidence rows1) := by
  constructor
  · intro rows
    exact ⟨le_max_left _ _, max_le zero_le_one (min_le_left _ _)⟩
  · intro r1 r2 h
    unfold confidence typical_spread
    have hmono : 1 - seriesMedian (spreadsOf r2) / 1 ≤ 1 - seriesMedian (spreadsOf r1) / 1 := by
      simp only [div_one]
      linarith
    exact max_le_max (le_refl 0) (min_le_min (le_refl 1) hmono)

/-- Witness for `confidence_spec`: a zero-spread single row versus the
two-row scenario with median spread `1`. -/
theorem confidence_spec_witness :
    (0 ≤ confidence confScenarioRows ∧ confidence confScenarioRows ≤ 1) ∧
    confidence confScenarioRows ≤ confidence [⟨0, 50, 0, 0, 5, 5, 5, 1⟩] :=
  ⟨confidence_spec.1 confScenarioRows,
   confidence_spec.2 [⟨0, 50, 0, 0, 5, 5, 5, 1⟩] confScenarioRows
     (by with_unfolding_all decide)⟩
